import Mathlib

/-!
Verification of the process-supervision / protocol-negotiation / screenshot-extraction
subsystem of the repository (source: src/src/runtime/httpClient.ts).

The embedding is shallow: the asynchronous methods of `PlaywrightMcpManager` are
modelled as pure state-transition functions.  A cached promise is represented by
its eventual settled outcome (`Except Err _`), since every property of interest
is about the state observed at `await` points.  Effectful steps (spawning,
`mkdir`, `writeFile`, `access`, the remote tool call, transport connects) are
parameters of the model: each one is an `Except Err _` outcome (or a boolean
filesystem predicate) supplied by the environment, and the model composes them
exactly the way the source does.
-/

namespace Tintin

/-- Errors are carried as their message strings (the source throws `Error(msg)`
and logs `String(e)`). -/
abbrev Err := String

/-- `PlaywrightServerInfo` (httpClient.ts lines 40-45). -/
structure PlaywrightServerInfo where
  port : Nat
  url : String
  userDataDir : String
  outputDir : String
deriving DecidableEq, Repr

/-- The lifecycle-relevant fields of a Node `ChildProcess`: the `killed` flag
(set once a signal has been delivered with `kill()`) and the `exitCode`
(`none` while the process has not exited). -/
structure Child where
  killed : Bool
  exitCode : Option Int
deriving DecidableEq, Repr

/-- The value a successful `startServer()` resolves to (line 168, 234):
the server info plus the spawned child handle. -/
structure Started where
  info : PlaywrightServerInfo
  child : Child
deriving DecidableEq, Repr

/-- The liveness test of line 61: `!started.child.killed && started.child.exitCode === null`. -/
def childAlive (c : Child) : Bool := !c.killed && c.exitCode == none

/-- The two cached fields of `PlaywrightMcpManager` (lines 53-54).
`startPromise` holds the settled outcome of the cached start attempt
(`none` when the field is `null`); `clientPromise` holds the identity of the
cached client-connection attempt (`none` when `null`). -/
structure MgrState where
  startPromise : Option (Except Err Started)
  clientPromise : Option Nat
deriving Repr

/-- The observable outcome of one `ensureServer()` call: the value/exception it
resolves with, the manager state after the call settles, and whether the call
made a new `startServer()` attempt (i.e. spawned). -/
structure EnsureServerRun where
  result : Except Err PlaywrightServerInfo
  state : MgrState
  spawned : Bool
deriving Repr

/-- Lines 65-71: assign `startServer().catch(...)` and await it.  On success the
new attempt is cached and `clientPromise` is left untouched; on failure the
attached catch clears both fields before rethrowing. -/
def startFresh (st : MgrState) (fresh : Except Err Started) : EnsureServerRun :=
  match fresh with
  | .ok started =>
      ⟨.ok started.info, { startPromise := some (.ok started), clientPromise := st.clientPromise }, true⟩
  | .error e => ⟨.error e, { startPromise := none, clientPromise := none }, true⟩

/-- `ensureServer` (lines 58-72).  `fresh` is the outcome a new `startServer()`
attempt would settle with, if one is made.  A cached attempt in error state
(`some (.error e)`) models a caller awaiting a shared in-flight attempt that
fails: the await rethrows and the attached catch has cleared both fields. -/
def ensureServer (st : MgrState) (fresh : Except Err Started) : EnsureServerRun :=
  match st.startPromise with
  | some (.error e) => ⟨.error e, { startPromise := none, clientPromise := none }, false⟩
  | some (.ok started) =>
      if childAlive started.child then ⟨.ok started.info, st, false⟩
      else startFresh { startPromise := none, clientPromise := none } fresh
  | none => startFresh st fresh

/-- `child.kill(...)` as observed through the handle: Node sets the `killed`
flag once the signal has been delivered. -/
def kill (c : Child) : Child := { c with killed := true }

/-- `stop()` (lines 74-90) as it acts on the cached state: the client is closed
best-effort (no state mutation), and if a start attempt resolved successfully
and its child has not been signalled yet, `SIGTERM` is delivered, setting the
`killed` flag.  Neither cached field is set to `null` by `stop` itself. -/
def stop (st : MgrState) : MgrState :=
  match st.startPromise with
  | some (.ok started) =>
      if started.child.killed then st
      else { st with startPromise := some (.ok { started with child := kill started.child }) }
  | _ => st

/-- `ensureClient` (lines 145-149), acting on the `clientPromise` field alone:
if an attempt is cached it is returned as-is, otherwise a fresh attempt
(identified by `freshId`) is created and cached.  Returns the attempt the
caller awaits together with the field after the call. -/
def ensureClient (clientPromise : Option Nat) (freshId : Nat) : Nat × Option Nat :=
  match clientPromise with
  | some p => (p, some p)
  | none => (freshId, some freshId)

/-- The state transition performed on `clientPromise` when the cached client
attempt settles.  Lines 145-149 and 151-166 attach no rejection or fulfillment
handler to `clientPromise` (contrast the `.catch` attached to `startPromise`
at lines 65-69), so settlement of the client attempt, with success or failure,
mutates nothing. -/
def clientSettle (clientPromise : Option Nat) (_outcome : Except Err Unit) : Option Nat :=
  clientPromise

/-- `tryPort`-driven scan loop of `findAvailablePort` (lines 328-331), with the
remaining number of ports to probe as fuel.  `avail port` is the outcome of
`tryPort(host, port)`. -/
def scanPorts (avail : Nat → Bool) (port fuel : Nat) : Option Nat :=
  match fuel with
  | 0 => none
  | f + 1 => if avail port then some port else scanPorts avail (port + 1) f

/-- The message of the error thrown at line 332. -/
def portExhaustedMsg (s e : Nat) : String :=
  "No open port found for Playwright MCP between " ++ toString s ++ " and " ++ toString e

/-- `findAvailablePort` (lines 327-333): probe `start..end` inclusive,
ascending, return the first port that binds, else throw. -/
def findAvailablePort (avail : Nat → Bool) (s e : Nat) : Except Err Nat :=
  match scanPorts avail s (e + 1 - s) with
  | some p => .ok p
  | none => .error (portExhaustedMsg s e)

/-! ### Filename sanitisation (lines 95-97) -/

/-- Membership in the character class `[A-Za-z0-9_-]` of the sanitising regex
at line 95. -/
def isSafeChar (c : Char) : Bool :=
  ('A' ≤ c && c ≤ 'Z') || ('a' ≤ c && c ≤ 'z') || ('0' ≤ c && c ≤ '9') || c == '_' || c == '-'

mutual
/-- `t.replace(/[^A-Za-z0-9_-]+/g, "-")` (line 95) on the character list: a
safe character is copied; a character outside the class starts a match of the
`+`-quantified class complement, emitting a single dash for the whole run. -/
def sanitizeChars : List Char → List Char
  | [] => []
  | c :: cs => if isSafeChar c then c :: sanitizeChars cs else '-' :: skipBad cs
/-- Continuation of the `+` quantifier: the remaining characters of the
current unsafe run are consumed without further output. -/
def skipBad : List Char → List Char
  | [] => []
  | c :: cs => if isSafeChar c then c :: sanitizeChars cs else skipBad cs
end

def sanitizeTool (t : String) : String := String.mk (sanitizeChars t.data)

theorem length_dropWhile_le_self (p : Char → Bool) (l : List Char) :
    (l.dropWhile p).length ≤ l.length := by
  induction l with
  | nil => simp [List.dropWhile]
  | cons c cs ih =>
      by_cases h : p c
      · rw [List.dropWhile_cons_of_pos h]
        exact Nat.le_trans ih (Nat.le_succ _)
      · rw [List.dropWhile_cons_of_neg h]

/-- Comparison definition for the wording of the amended C7: each maximal run
of consecutive characters outside `[A-Za-z0-9_-]` is replaced by a single
dash; safe characters are kept. -/
def runCollapse (l : List Char) : List Char :=
  match l with
  | [] => []
  | c :: cs =>
      if isSafeChar c then c :: runCollapse cs
      else '-' :: runCollapse (cs.dropWhile (fun d => !isSafeChar d))
termination_by l.length
decreasing_by
  all_goals simp only [List.length_cons]
  · omega
  · have h := length_dropWhile_le_self (fun d => !isSafeChar d) cs
    omega

/-- Comparison definition for the literal wording of claim C7: replace each
individual character outside `[A-Za-z0-9_-]` with a dash. -/
def charReplace (l : List Char) : List Char :=
  l.map (fun c => if isSafeChar c then c else '-')

/-- `path.join` as used at lines 96-97, where both joins have normal
separator-free, dot-free segments: `a ++ "/" ++ b`, and `b` when `a` is
empty. -/
def pathJoin (a b : String) : String := if a == "" then b else a ++ "/" ++ b

/-- Line 95: `opts.tool ? opts.tool.replace(/[^A-Za-z0-9_-]+/g, "-") : "call"`
(an absent or empty `tool` is falsy). -/
def safeToolOf (tool : Option String) : String :=
  match tool with
  | some t => if t == "" then "call" else sanitizeTool t
  | none => "call"

/-- Line 96: `path.join(opts.sessionId, ...)` where the joined template is
the tool name (with the extra empty-string fallback to the word call), the
call id (or the word auto), and the timestamp, dash-separated, ending in
`.png`. -/
def relFileNameOf (sessionId : String) (tool callId : Option String) (now : Nat) : String :=
  let safeTool := safeToolOf tool
  pathJoin sessionId
    ((if safeTool == "" then "call" else safeTool) ++ "-" ++ callId.getD ("auto") ++ "-"
      ++ toString now ++ ".png")

/-! ### `safeSnippet` (lines 242-246) -/

/-- JS `\s`, modelled for ASCII whitespace. -/
def isWs (c : Char) : Bool := c.isWhitespace

mutual
/-- `text.replace(/\s+/g, " ")` (line 243): each maximal whitespace run is
replaced by a single space. -/
def collapseWs : List Char → List Char
  | [] => []
  | c :: cs => if isWs c then ' ' :: skipWs cs else c :: collapseWs cs
/-- Continuation inside a whitespace run. -/
def skipWs : List Char → List Char
  | [] => []
  | c :: cs => if isWs c then skipWs cs else c :: collapseWs cs
end

/-- Trailing-whitespace removal, the second half of `.trim()`. -/
def dropTrailingWs : List Char → List Char
  | [] => []
  | c :: cs =>
      match dropTrailingWs cs with
      | [] => if isWs c then [] else [c]
      | rest => c :: rest

/-- `.trim()` (line 243): drop leading and trailing whitespace. -/
def jsTrim (l : List Char) : List Char := dropTrailingWs (l.dropWhile isWs)

/-- The cleaned text of line 243: `(text ?? "").replace(/\s+/g, " ").trim()`. -/
def cleanChars (l : List Char) : List Char := jsTrim (collapseWs l)

/-- The truncation mark appended at line 245.  In the source file the literal
consists of the three characters of a mojibaked ellipsis — three JS string
elements, hence three characters here. -/
def ellipsisChars : List Char := ['â', '€', '¦']

/-- `safeSnippet` (lines 242-246); every call site uses the default
`maxChars = 240`. -/
def safeSnippetChars (l : List Char) : List Char :=
  let clean := cleanChars l
  if clean.length ≤ 240 then clean else clean.take 240 ++ ellipsisChars

def safeSnippet (text : String) : String := String.mk (safeSnippetChars text.data)

/-- Whitespace-collapsedness, part 1: every whitespace character is a plain
space. -/
def spaceOnlyWs (l : List Char) : Bool := l.all (fun c => !isWs c || c == ' ')

/-- Whitespace-collapsedness, part 2: no two adjacent whitespace
characters. -/
def noAdjWs : List Char → Bool
  | c :: d :: rest => (!(isWs c && isWs d)) && noAdjWs (d :: rest)
  | _ => true

/-! ### Markdown-link extraction (lines 248-259) -/

/-- One attempted match of the link regex of line 250 with the scan position
just after a literal opening square bracket: the bracket body is the maximal
run of characters other than the closing square bracket, which must be
followed by that closing bracket and an opening parenthesis; the capture is
the maximal non-empty run of characters other than the closing parenthesis,
followed by that closing parenthesis.  Returns the capture and the characters
after the match. -/
def takeCapture (cs : List Char) : Option (String × List Char) :=
  match cs.dropWhile (fun c => c != ']') with
  | ']' :: '(' :: cs2 =>
      let cap := cs2.takeWhile (fun c => c != ')')
      (match cs2.dropWhile (fun c => c != ')') with
       | ')' :: rest => if cap.isEmpty then none else some (String.mk cap, rest)
       | _ => none)
  | _ => none

theorem takeCapture_length_lt (cs : List Char) (cap : String) (rest : List Char)
    (h : takeCapture cs = some (cap, rest)) : rest.length < cs.length := by
  unfold takeCapture at h
  have h1 := length_dropWhile_le_self (fun c => c != ']') cs
  split at h
  · next cs2 heq =>
      rw [heq] at h1
      simp only [List.length_cons] at h1
      have h2 := length_dropWhile_le_self (fun c => c != ')') cs2
      split at h
      · next rest2 heq2 =>
          rw [heq2] at h2
          simp only [List.length_cons] at h2
          cases hc : (List.takeWhile (fun c => c != ')') cs2).isEmpty with
          | true => simp [hc] at h
          | false =>
              simp [hc] at h
              obtain ⟨h3, h4⟩ := h
              subst h4
              omega
      · exact absurd h (by simp)
  · exact absurd h (by simp)

/-- The `matchAll` traversal of lines 249-256: scan left to right; at each
opening square bracket attempt a match, appending the capture and resuming
after the match on success, or resuming right after the bracket on failure
(the regex engine restarts the search one position later).  The fuel only
serves structural termination: every step consumes at least one character
(`takeCapture_length_lt`), so fuel equal to the text length is never
exhausted. -/
def scanLinksFuel : Nat → List Char → List String
  | 0, _ => []
  | _ + 1, [] => []
  | fuel + 1, c :: rest =>
      if c == '[' then
        match takeCapture rest with
        | some (cap, rest2) => cap :: scanLinksFuel fuel rest2
        | none => scanLinksFuel fuel rest
      else scanLinksFuel fuel rest

def scanLinks (l : List Char) : List String := scanLinksFuel l.length l

/-- JS `String.prototype.endsWith`, on the character lists. -/
def jsEndsWith (s suff : String) : Bool := suff.data.isSuffixOf s.data

/-- The image-extension preference predicate of line 257. -/
def isImagePath (p : String) : Bool :=
  jsEndsWith p (".png") || jsEndsWith p (".jpeg") || jsEndsWith p (".jpg")

/-- Lines 249-256: the trimmed, non-empty captures collected into the
candidate array. -/
def linkCandidatesOf (text : String) : List String :=
  ((scanLinks text.data).map (fun s => String.mk (jsTrim s.data))).filter (fun s => s != "")

/-- `extractFirstLinkedFilePath` (lines 248-259): among the collected
captures prefer the first whose path ends in `.png`, `.jpeg` or `.jpg`, else
take the first capture, else nothing. -/
def extractFirstLinkedFilePath (text : String) : Option String :=
  match (linkCandidatesOf text).find? isImagePath with
  | some p => some p
  | none => (linkCandidatesOf text).head?

/-! ### The screenshot pipeline (lines 92-143) -/

/-- `ScreenshotResult` (lines 47-50); both fields are optional in the source,
but every constructed value sets `savedPath` (lines 121, 132). -/
structure ScreenshotResult where
  savedPath : String
  mimeType : Option String
deriving DecidableEq, Repr

/-- One content block of the tool response, as shape-probed by lines 106-127:
a block whose type field is the word image (with optional string data and
mime-type fields), a block whose type field is the word text carrying a
string text field, or anything else. -/
inductive ContentBlock where
  | image (data : Option String) (mimeType : Option String)
  | text (s : String)
  | other
deriving DecidableEq, Repr

structure ToolResponse where
  isError : Bool
  content : List ContentBlock
deriving Repr

def isImageBlock : ContentBlock → Bool
  | .image _ _ => true
  | _ => false

def isTextBlock : ContentBlock → Bool
  | .text _ => true
  | _ => false

/-- Line 107: the text field of the first content block when it is a string,
else the empty string. -/
def firstBlockText (r : ToolResponse) : String :=
  match r.content.head? with
  | some (.text s) => s
  | _ => ""

/-- Lines 112-116: the mime-type field of the first image block. -/
def imageMime (r : ToolResponse) : Option String :=
  match r.content.find? isImageBlock with
  | some (.image _ m) => m
  | _ => none

/-- Lines 112-117: the data field of the first image block. -/
def imageData (r : ToolResponse) : Option String :=
  match r.content.find? isImageBlock with
  | some (.image d _) => d
  | _ => none

/-- Lines 124-126: the text of the first text block. -/
def firstText (r : ToolResponse) : Option String :=
  match r.content.find? isTextBlock with
  | some (.text s) => some s
  | _ => none

/-- JS truthiness of the base64 value at line 118 (null and the empty string
are falsy). -/
def strTruthy : Option String → Bool
  | some s => s != ""
  | none => false

/-- The effect outcomes consumed inside one `takeScreenshot` call. -/
structure ScreenshotFx where
  mkdirResult : Except Err Unit
  callTool : Except Err ToolResponse
  writeResult : Except Err Unit
  fsExists : String → Bool
  now : Nat

/-- Lines 124-136: the candidate list of the linked path and the expected
path, filtered to non-empty strings; the first candidate that `access`
accepts is returned. -/
def textPathResult (fsExists : String → Bool) (expectedPath : String)
    (mime : Option String) (res : ToolResponse) : Option ScreenshotResult :=
  let linked : Option String := (firstText res).bind extractFirstLinkedFilePath
  let candidates := (linked.toList ++ [expectedPath]).filter (fun p => p != "")
  match candidates.find? fsExists with
  | some c => some ⟨c, mime⟩
  | none => none

/-- The try block of lines 99-142: a throw anywhere inside (tool call or file
write) is caught at line 139, logged, and converted to null. -/
def tryBlock (fx : ScreenshotFx) (expectedPath : String) :
    Option ScreenshotResult × List String :=
  match fx.callTool with
  | .error e => (none, ["[playwright-mcp] screenshot failed: " ++ e])
  | .ok res =>
      if res.isError then
        (none, ["[playwright-mcp] screenshot tool error: " ++ safeSnippet (firstBlockText res)])
      else
        if strTruthy (imageData res) then
          match fx.writeResult with
          | .ok _ => (some ⟨expectedPath, imageMime res⟩, [])
          | .error e => (none, ["[playwright-mcp] screenshot failed: " ++ e])
        else
          (textPathResult fx.fsExists expectedPath (imageMime res) res, [])

structure ShotOpts where
  sessionId : String
  callId : Option String
  tool : Option String

structure ShotEnv where
  serverOut : Except Err PlaywrightServerInfo
  clientOut : Except Err Unit
  fx : ScreenshotFx

structure ShotRun where
  result : Except Err (Option ScreenshotResult)
  logs : List String

/-- `takeScreenshot` (lines 92-143).  `ensureServer` (line 93), `ensureClient`
(line 94) and the `mkdir` of line 98 run before the try block: their failures
propagate to the caller.  The try block's outcome is always returned
normally. -/
def takeScreenshot (env : ShotEnv) (opts : ShotOpts) : ShotRun :=
  match env.serverOut with
  | .error e => ⟨.error e, []⟩
  | .ok server =>
      match env.clientOut with
      | .error e => ⟨.error e, []⟩
      | .ok _ =>
          let relFileName := relFileNameOf opts.sessionId opts.tool opts.callId env.fx.now
          let expectedPath := pathJoin server.outputDir relFileName
          match env.fx.mkdirResult with
          | .error e => ⟨.error e, []⟩
          | .ok _ =>
              let r := tryBlock env.fx expectedPath
              ⟨.ok r.1, r.2⟩

/-! ### Client negotiation (lines 151-166) -/

/-- Line 162: replace a trailing `/mcp` of the pathname with nothing. -/
def stripMcp (l : List Char) : List Char :=
  if ("/mcp").data.isSuffixOf l then l.take (l.length - 4) else l

/-- Line 162: the derived SSE pathname. -/
def sseRewritePath (p : String) : String :=
  String.mk (stripMcp p.data ++ ("/sse").data)

/-- The warning of line 158. -/
def primaryWarn (e : Err) : String :=
  "[playwright-mcp] streamable HTTP connect failed (" ++ e ++ "), falling back to SSE"

structure ConnectRun where
  result : Except Err Unit
  warnings : List String
  fallbackPath : Option String
deriving Repr

/-- `createClient` (lines 151-166): connect over the streamable HTTP transport
at the server URL; on failure, warn and connect over SSE at the rewritten URL;
a fallback failure propagates.  `urlPath` is the pathname of the server URL;
`primary` and `fallback` are the outcomes of the two connect calls;
`fallbackPath` records whether and where the fallback transport was
attempted. -/
def createClient (urlPath : String) (primary fallback : Except Err Unit) : ConnectRun :=
  match primary with
  | .ok _ => ⟨.ok (), [], none⟩
  | .error e =>
      match fallback with
      | .ok _ => ⟨.ok (), [primaryWarn e], some (sseRewritePath urlPath)⟩
      | .error e2 => ⟨.error e2, [primaryWarn e], some (sseRewritePath urlPath)⟩

/-! ## Theorems for the claims -/

def demoInfo : PlaywrightServerInfo := ⟨5000, "http://127.0.0.1:5000/mcp", "/data/ud", "/data/out"⟩

def demoAliveChild : Child := ⟨false, none⟩

def demoDeadChild : Child := ⟨false, some 0⟩

/-- C3: if a previously started process is still alive (not killed, no exit
code), `ensureServer` returns the existing server info without spawning a
second process; if it has exited, the stale cached state is discarded and a
fresh start attempt is made; and a new start attempt only ever happens when no
cached live child exists, so at most one live process handle exists per
manager instance at any time. -/
theorem ensureServer_reuses_live_child (st : MgrState) (fresh : Except Err Started) :
    (∀ s, st.startPromise = some (.ok s) → childAlive s.child = true →
        ensureServer st fresh = ⟨.ok s.info, st, false⟩)
    ∧ (∀ s, st.startPromise = some (.ok s) → childAlive s.child = false →
        ensureServer st fresh = startFresh ⟨none, none⟩ fresh
          ∧ (ensureServer st fresh).spawned = true)
    ∧ ((ensureServer st fresh).spawned = true →
        ∀ s, st.startPromise = some (.ok s) → childAlive s.child = false) := by
  obtain ⟨sp, cp⟩ := st
  cases sp with
  | none =>
      refine ⟨?_, ?_, ?_⟩
      · intro s hs; exact absurd hs (by simp)
      · intro s hs; exact absurd hs (by simp)
      · intro _ s hs; exact absurd hs (by simp)
  | some x =>
      cases x with
      | error e =>
          refine ⟨?_, ?_, ?_⟩
          · intro s hs; exact absurd hs (by simp)
          · intro s hs; exact absurd hs (by simp)
          · intro hsp; exact absurd hsp (by simp [ensureServer])
      | ok s0 =>
          cases ha : childAlive s0.child with
          | true =>
              refine ⟨?_, ?_, ?_⟩
              · intro s hs _
                obtain rfl : s0 = s := by simpa using hs
                simp [ensureServer, ha]
              · intro s hs hdead
                obtain rfl : s0 = s := by simpa using hs
                rw [ha] at hdead; cases hdead
              · intro hsp
                simp [ensureServer, ha] at hsp
          | false =>
              refine ⟨?_, ?_, ?_⟩
              · intro s hs halive
                obtain rfl : s0 = s := by simpa using hs
                rw [ha] at halive; cases halive
              · intro s hs _
                refine ⟨by simp [ensureServer, ha], ?_⟩
                cases fresh <;> simp [ensureServer, ha, startFresh]
              · intro _ s hs
                obtain rfl : s0 = s := by simpa using hs
                exact ha

/-- Witness for C3: a live cached child is returned as-is, without a spawn. -/
theorem ensureServer_reuses_live_child_witness :
    ensureServer ⟨some (.ok ⟨demoInfo, demoAliveChild⟩), some 0⟩ (.error "boom")
      = ⟨.ok demoInfo, ⟨some (.ok ⟨demoInfo, demoAliveChild⟩), some 0⟩, false⟩ :=
  (ensureServer_reuses_live_child _ _).1 ⟨demoInfo, demoAliveChild⟩ rfl (by decide)

/-- C5: when a start attempt fails, `ensureServer` clears both cached fields
and rethrows the failure, so the manager is idle again and the next call makes
a fresh start attempt rather than replaying the cached failure. -/
theorem ensureServer_failure_resets (st : MgrState) (e : Err) :
    (st.startPromise = none →
        ensureServer st (.error e) = ⟨.error e, ⟨none, none⟩, true⟩)
    ∧ (∀ s, st.startPromise = some (.ok s) → childAlive s.child = false →
        ensureServer st (.error e) = ⟨.error e, ⟨none, none⟩, true⟩)
    ∧ (∀ fresh : Except Err Started, (ensureServer ⟨none, none⟩ fresh).spawned = true) := by
  refine ⟨?_, ?_, ?_⟩
  · intro h
    obtain ⟨sp, cp⟩ := st
    simp only at h
    subst h
    simp [ensureServer, startFresh]
  · intro s hs hdead
    obtain ⟨sp, cp⟩ := st
    simp only at hs
    subst hs
    simp [ensureServer, hdead, startFresh]
  · intro fresh
    cases fresh <;> simp [ensureServer, startFresh]

/-- Witness for C5: a port-exhausted start failure leaves the idle state. -/
theorem ensureServer_failure_resets_witness :
    ensureServer ⟨none, none⟩ (.error (portExhaustedMsg 5000 5002))
      = ⟨.error (portExhaustedMsg 5000 5002), ⟨none, none⟩, true⟩ :=
  (ensureServer_failure_resets ⟨none, none⟩ (portExhaustedMsg 5000 5002)).1 rfl

/-- C10: stopping a running manager sets the child's killed flag; a subsequent
`ensureServer` therefore fails the liveness check, discards the stale start
and client state, makes a fresh start attempt, and never returns the stopped
process's server info (any successful result carries the fresh attempt's
info). -/
theorem stop_prevents_stale_reuse (st : MgrState) (s : Started) (fresh : Except Err Started)
    (hs : st.startPromise = some (.ok s)) (halive : childAlive s.child = true) :
    (stop st).startPromise = some (.ok { s with child := kill s.child })
    ∧ (kill s.child).killed = true
    ∧ ensureServer (stop st) fresh = startFresh ⟨none, none⟩ fresh
    ∧ (ensureServer (stop st) fresh).spawned = true
    ∧ (ensureServer (stop st) fresh).state.clientPromise = none
    ∧ (∀ info, (ensureServer (stop st) fresh).result = .ok info →
        ∃ s2, fresh = .ok s2 ∧ info = s2.info) := by
  have hk : s.child.killed = false := by
    simp [childAlive] at halive
    exact halive.1
  obtain ⟨sp, cp⟩ := st
  simp only at hs
  subst hs
  have hstop : stop ⟨some (.ok s), cp⟩ = ⟨some (.ok { s with child := kill s.child }), cp⟩ := by
    simp [stop, hk]
  rw [hstop]
  have hdead : childAlive (kill s.child) = false := by simp [childAlive, kill]
  refine ⟨rfl, rfl, by simp [ensureServer, hdead], ?_, ?_, ?_⟩
  · cases fresh <;> simp [ensureServer, hdead, startFresh]
  · cases fresh <;> simp [ensureServer, hdead, startFresh]
  · intro info hinfo
    cases fresh with
    | ok s2 =>
        refine ⟨s2, rfl, ?_⟩
        simp [ensureServer, hdead, startFresh] at hinfo
        exact hinfo.symm
    | error e =>
        simp [ensureServer, hdead, startFresh] at hinfo

/-- Witness for C10: stopping with a live cached child flips its killed
flag in the cache. -/
theorem stop_prevents_stale_reuse_witness :
    (stop ⟨some (.ok ⟨demoInfo, demoAliveChild⟩), some 3⟩).startPromise
      = some (.ok ⟨demoInfo, kill demoAliveChild⟩) :=
  (stop_prevents_stale_reuse _ ⟨demoInfo, demoAliveChild⟩ (.error "e") rfl (by decide)).1

/-- C2 counterexample: attempt 0 is cached and settles with a failure; the
source attaches no handler that clears `clientPromise` on rejection
(`clientSettle` is the identity), so the state after settlement still holds
attempt 0, and the next `ensureClient` call returns the failed attempt 0
instead of making the fresh attempt 1 — the cached failure is replayed. -/
theorem ensureClient_failed_attempt_replayed :
    clientSettle (some 0) (.error "fetch failed") = some 0
    ∧ ensureClient (some 0) 1 = (0, some 0)
    ∧ (ensureClient (some 0) 1).1 ≠ 1 := ⟨rfl, rfl, by decide⟩

/-- C2 amended: `ensureClient` is single-flight — callers while an attempt is
cached share that attempt and its outcome, and a call with an empty cache
creates and caches one fresh attempt — but a failed attempt is not cleared by
the negotiator itself (settlement leaves the cache unchanged); the client
cache is only cleared by the supervisor, e.g. when `ensureServer` discards a
dead server. -/
theorem ensureClient_single_flight (p q : Nat) (out : Except Err Unit) (st : MgrState)
    (fresh : Except Err Started) :
    ensureClient (some p) q = (p, some p)
    ∧ ensureClient none q = (q, some q)
    ∧ clientSettle (some p) out = some p
    ∧ (∀ s, st.startPromise = some (.ok s) → childAlive s.child = false →
        (ensureServer st fresh).state.clientPromise = none) := by
  refine ⟨rfl, rfl, rfl, ?_⟩
  intro s hs hdead
  obtain ⟨sp, cp⟩ := st
  simp only at hs
  subst hs
  cases fresh <;> simp [ensureServer, hdead, startFresh]

/-- Witness for C2's amended claim: sharing of a cached attempt, and the
supervisor-side clearing for a dead server. -/
theorem ensureClient_single_flight_witness :
    ensureClient (some 5) 9 = (5, some 5)
    ∧ (ensureServer ⟨some (.ok ⟨demoInfo, demoDeadChild⟩), some 5⟩
        (.error "e2")).state.clientPromise = none :=
  ⟨(ensureClient_single_flight 5 9 (.ok ()) ⟨none, none⟩ (.error "e2")).1,
    (ensureClient_single_flight 5 9 (.ok ())
        ⟨some (.ok ⟨demoInfo, demoDeadChild⟩), some 5⟩ (.error "e2")).2.2.2
      ⟨demoInfo, demoDeadChild⟩ rfl (by decide)⟩

theorem scanPorts_some (avail : Nat → Bool) :
    ∀ fuel start p, scanPorts avail start fuel = some p →
      start ≤ p ∧ p < start + fuel ∧ avail p = true ∧
        ∀ q, start ≤ q → q < p → avail q = false := by
  intro fuel
  induction fuel with
  | zero => intro start p h; simp [scanPorts] at h
  | succ f ih =>
      intro start p h
      cases ha : avail start with
      | true =>
          simp [scanPorts, ha] at h
          subst h
          exact ⟨Nat.le_refl _, by omega, ha, fun q hq1 hq2 => absurd hq1 (by omega)⟩
      | false =>
          simp [scanPorts, ha] at h
          obtain ⟨h1, h2, h3, h4⟩ := ih (start + 1) p h
          refine ⟨by omega, by omega, h3, ?_⟩
          intro q hq1 hq2
          rcases Nat.eq_or_lt_of_le hq1 with heq | hlt
          · rw [← heq]; exact ha
          · exact h4 q (by omega) hq2

theorem scanPorts_none (avail : Nat → Bool) :
    ∀ fuel start, scanPorts avail start fuel = none ↔
      ∀ q, start ≤ q → q < start + fuel → avail q = false := by
  intro fuel
  induction fuel with
  | zero =>
      intro start
      constructor
      · intro _ q hq1 hq2; omega
      · intro _; simp [scanPorts]
  | succ f ih =>
      intro start
      constructor
      · intro h q hq1 hq2
        cases ha : avail start with
        | true => simp [scanPorts, ha] at h
        | false =>
            simp [scanPorts, ha] at h
            rcases Nat.eq_or_lt_of_le hq1 with heq | hlt
            · rw [← heq]; exact ha
            · exact (ih (start + 1)).mp h q (by omega) (by omega)
      · intro hall
        cases ha : avail start with
        | true => exact absurd (hall start (Nat.le_refl _) (by omega)) (by simp [ha])
        | false =>
            simp [scanPorts, ha]
            exact (ih (start + 1)).mpr (fun q hq1 hq2 => hall q (by omega) (by omega))

/-- C4: `findAvailablePort` scans `start..end` inclusive, ascending, returns
the first port the probe accepts, and fails with the port-exhausted error
exactly when no port in the range is free; in particular for the range 5000
to 5002 with 5000 and 5001 occupied it returns 5002, and with all three
occupied it fails. -/
theorem findAvailablePort_spec :
    (∀ (avail : Nat → Bool) (s e p : Nat), findAvailablePort avail s e = .ok p →
        s ≤ p ∧ p ≤ e ∧ avail p = true ∧ ∀ q, s ≤ q → q < p → avail q = false)
    ∧ (∀ (avail : Nat → Bool) (s e : Nat),
        findAvailablePort avail s e = .error (portExhaustedMsg s e) ↔
          ∀ p, s ≤ p → p ≤ e → avail p = false)
    ∧ findAvailablePort (fun p => p == 5002) 5000 5002 = .ok 5002
    ∧ findAvailablePort (fun _ => false) 5000 5002 = .error (portExhaustedMsg 5000 5002) := by
  refine ⟨?_, ?_, rfl, rfl⟩
  · intro avail s e p h
    unfold findAvailablePort at h
    cases hscan : scanPorts avail s (e + 1 - s) with
    | none => rw [hscan] at h; cases h
    | some p2 =>
        rw [hscan] at h
        injection h with hpe
        subst hpe
        obtain ⟨h1, h2, h3, h4⟩ := scanPorts_some avail (e + 1 - s) s p2 hscan
        exact ⟨h1, by omega, h3, h4⟩
  · intro avail s e
    constructor
    · intro h p hp1 hp2
      unfold findAvailablePort at h
      cases hscan : scanPorts avail s (e + 1 - s) with
      | none => exact (scanPorts_none avail (e + 1 - s) s).mp hscan p hp1 (by omega)
      | some p2 => rw [hscan] at h; cases h
    · intro hall
      unfold findAvailablePort
      rw [(scanPorts_none avail (e + 1 - s) s).mpr (fun q hq1 hq2 => hall q hq1 (by omega))]

/-- Witness for C4: from the concrete range of the claim, the first free
port is inside the range and accepted by the probe. -/
theorem findAvailablePort_spec_witness :
    5000 ≤ 5002 ∧ ((fun p => p == 5002) 5002 : Bool) = true := by
  have h := findAvailablePort_spec.1 (fun p => p == 5002) 5000 5002 5002 rfl
  exact ⟨h.1, h.2.2.1⟩

/-- C9: when the primary streaming transport fails to connect, a warning is
logged and the SSE fallback is attempted at the URL obtained by stripping a
trailing /mcp path suffix and appending /sse; the negotiation succeeds when
the fallback connects, the failure is surfaced only when the fallback also
fails, and the outcome is fully determined by the two transports — there is
no third. -/
theorem createClient_fallback (urlPath : String) (e e2 : Err) (fb : Except Err Unit) :
    createClient urlPath (.ok ()) fb = ⟨.ok (), [], none⟩
    ∧ createClient urlPath (.error e) (.ok ())
        = ⟨.ok (), [primaryWarn e], some (sseRewritePath urlPath)⟩
    ∧ createClient urlPath (.error e) (.error e2)
        = ⟨.error e2, [primaryWarn e], some (sseRewritePath urlPath)⟩
    ∧ sseRewritePath ("/mcp") = "/sse"
    ∧ (∀ l : List Char, stripMcp (l ++ ("/mcp").data) = l)
    ∧ (∀ l : List Char, ¬ (("/mcp").data <:+ l) → stripMcp l = l) := by
  refine ⟨rfl, rfl, rfl, rfl, ?_, ?_⟩
  · intro l
    have hsuf : (("/mcp").data).isSuffixOf (l ++ ("/mcp").data) = true :=
      List.isSuffixOf_iff_suffix.mpr (List.suffix_append _ _)
    have hlen : l.length = (l ++ ("/mcp").data).length - 4 := by
      simp [List.length_append]
    simp only [stripMcp, hsuf, if_true]
    exact List.take_left' hlen
  · intro l hns
    cases hb : (("/mcp").data).isSuffixOf l with
    | false => simp [stripMcp, hb]
    | true => exact absurd (List.isSuffixOf_iff_suffix.mp hb) hns

/-- Witness for C9: a pathname without the /mcp suffix is left unchanged by
the rewrite's strip step. -/
theorem createClient_fallback_witness :
    stripMcp (("/x").data) = ("/x").data :=
  (createClient_fallback ("/x") "e" "e2" (.ok ())).2.2.2.2.2 (("/x").data) (by decide)

/-- C1 counterexample: with server start and client negotiation both
successful, a failing directory creation (the `mkdir` of line 98, a
file-system failure occurring after the client is obtained) happens outside
the try block and propagates to the caller, instead of being caught and
resolved to null as the claim requires. -/
theorem takeScreenshot_mkdir_failure_propagates :
    (takeScreenshot
        ⟨.ok demoInfo, .ok (),
          ⟨.error "EACCES: permission denied", .ok ⟨false, []⟩, .ok (), fun _ => false, 7⟩⟩
        ⟨"sess", some "c1", some "shot"⟩).result
      = .error "EACCES: permission denied" := rfl

/-- C1 amended: `takeScreenshot` propagates an error to its caller only when
server start, client negotiation, or creation of the destination directory
fails; once those three have succeeded the call never throws — in particular
a tool-invocation failure or a file-write failure inside the guarded region is
caught, logged, and resolved to null. -/
theorem takeScreenshot_error_propagation (env : ShotEnv) (opts : ShotOpts) :
    (∀ e, (takeScreenshot env opts).result = .error e →
        env.serverOut = .error e ∨ env.clientOut = .error e ∨ env.fx.mkdirResult = .error e)
    ∧ (∀ server, env.serverOut = .ok server → env.clientOut = .ok () →
        env.fx.mkdirResult = .ok () →
        (takeScreenshot env opts).result
          = .ok (tryBlock env.fx (pathJoin server.outputDir
              (relFileNameOf opts.sessionId opts.tool opts.callId env.fx.now))).1)
    ∧ (∀ server e, env.serverOut = .ok server → env.clientOut = .ok () →
        env.fx.mkdirResult = .ok () → env.fx.callTool = .error e →
        (takeScreenshot env opts).result = .ok none
          ∧ (takeScreenshot env opts).logs ≠ [])
    ∧ (∀ server e res, env.serverOut = .ok server → env.clientOut = .ok () →
        env.fx.mkdirResult = .ok () → env.fx.callTool = .ok res →
        res.isError = false → strTruthy (imageData res) = true →
        env.fx.writeResult = .error e →
        (takeScreenshot env opts).result = .ok none
          ∧ (takeScreenshot env opts).logs ≠ []) := by
  obtain ⟨so, co, fx⟩ := env
  obtain ⟨mk, ct, wr, fs, now⟩ := fx
  refine ⟨?_, ?_, ?_, ?_⟩
  · intro e h
    cases so with
    | error e1 =>
        simp [takeScreenshot] at h
        subst h
        exact Or.inl rfl
    | ok server =>
        cases co with
        | error e1 =>
            simp [takeScreenshot] at h
            subst h
            exact Or.inr (Or.inl rfl)
        | ok u =>
            cases mk with
            | error e1 =>
                simp [takeScreenshot] at h
                subst h
                exact Or.inr (Or.inr rfl)
            | ok u2 => simp [takeScreenshot] at h
  · intro server hso hco hmk
    simp only at hso hco hmk
    subst hso
    subst hco
    subst hmk
    rfl
  · intro server e hso hco hmk hct
    simp only at hso hco hmk hct
    subst hso
    subst hco
    subst hmk
    subst hct
    exact ⟨by simp [takeScreenshot, tryBlock], by simp [takeScreenshot, tryBlock]⟩
  · intro server e res hso hco hmk hct hie himg hwr
    simp only at hso hco hmk hct hwr
    subst hso
    subst hco
    subst hmk
    subst hct
    subst hwr
    exact ⟨by simp [takeScreenshot, tryBlock, hie, himg],
      by simp [takeScreenshot, tryBlock, hie, himg]⟩

/-- Witness for C1's amended claim: a failing tool invocation after successful
resource acquisition resolves to null with a log entry. -/
theorem takeScreenshot_error_propagation_witness :
    (takeScreenshot
        ⟨.ok demoInfo, .ok (), ⟨.ok (), .error "boom", .ok (), fun _ => false, 7⟩⟩
        ⟨"sess", none, none⟩).result = .ok none
    ∧ (takeScreenshot
        ⟨.ok demoInfo, .ok (), ⟨.ok (), .error "boom", .ok (), fun _ => false, 7⟩⟩
        ⟨"sess", none, none⟩).logs ≠ [] :=
  (takeScreenshot_error_propagation _ _).2.2.1 demoInfo "boom" rfl rfl rfl rfl

/-- C6 counterexample: a response with no error, no image block and no text
block at all — for which the claim's precedence ends in null — still yields
the expected path when that file exists on disk: the candidate probe of
lines 128-136 runs even without a text block. -/
theorem tryBlock_no_text_block_returns_expected :
    (tryBlock ⟨.ok (), .ok ⟨false, []⟩, .ok (), fun p => p == "/out/s/x.png", 1⟩
        ("/out/s/x.png")).1
      = some ⟨"/out/s/x.png", none⟩
    ∧ some (⟨"/out/s/x.png", none⟩ : ScreenshotResult) ≠ (none : Option ScreenshotResult) :=
  ⟨by decide, by decide⟩

/-- C6 amended: response interpretation precedence — an explicit error yields
null; otherwise a first image block with non-empty base64 data yields the
expected path and the block's mime type once the bytes are written; otherwise
the candidate list of the linked path extracted from the first text block
(image-extension links preferred over the first link) followed by the
expected path is probed in order, the first candidate existing on disk being
returned, and the expected-path candidate is probed even when no text block
or link is present; when no candidate exists the result is null. -/
theorem tryBlock_precedence (fx : ScreenshotFx) (expectedPath : String) (res : ToolResponse) :
    (fx.callTool = .ok res → res.isError = true → (tryBlock fx expectedPath).1 = none)
    ∧ (fx.callTool = .ok res → res.isError = false → strTruthy (imageData res) = true →
        fx.writeResult = .ok () →
        (tryBlock fx expectedPath).1 = some ⟨expectedPath, imageMime res⟩)
    ∧ (fx.callTool = .ok res → res.isError = false → strTruthy (imageData res) = false →
        (tryBlock fx expectedPath).1
          = textPathResult fx.fsExists expectedPath (imageMime res) res)
    ∧ (∀ fsE mime l, (firstText res).bind extractFirstLinkedFilePath = some l →
        l ≠ "" → fsE l = true →
        textPathResult fsE expectedPath mime res = some ⟨l, mime⟩)
    ∧ (∀ fsE mime l, (firstText res).bind extractFirstLinkedFilePath = some l →
        l ≠ "" → fsE l = false → expectedPath ≠ "" → fsE expectedPath = true →
        textPathResult fsE expectedPath mime res = some ⟨expectedPath, mime⟩)
    ∧ (∀ fsE mime, (firstText res).bind extractFirstLinkedFilePath = none →
        expectedPath ≠ "" → fsE expectedPath = true →
        textPathResult fsE expectedPath mime res = some ⟨expectedPath, mime⟩)
    ∧ (∀ fsE mime l, (firstText res).bind extractFirstLinkedFilePath = some l →
        fsE l = false → fsE expectedPath = false →
        textPathResult fsE expectedPath mime res = none)
    ∧ (∀ fsE mime, (firstText res).bind extractFirstLinkedFilePath = none →
        fsE expectedPath = false →
        textPathResult fsE expectedPath mime res = none)
    ∧ (∀ text p, (linkCandidatesOf text).find? isImagePath = some p →
        extractFirstLinkedFilePath text = some p)
    ∧ (∀ text, (linkCandidatesOf text).find? isImagePath = none →
        extractFirstLinkedFilePath text = (linkCandidatesOf text).head?)
    ∧ (∀ text p, extractFirstLinkedFilePath text = some p → p ∈ linkCandidatesOf text)
    ∧ extractFirstLinkedFilePath ("See [shot](/tmp/out/a.png)") = some "/tmp/out/a.png"
    ∧ extractFirstLinkedFilePath ("See [log](/tmp/a.txt) and [shot](/tmp/b.png)")
        = some "/tmp/b.png" := by
  obtain ⟨mk, ct, wr, fs, now⟩ := fx
  refine ⟨?_, ?_, ?_, ?_, ?_, ?_, ?_, ?_, ?_, ?_, ?_, by decide, by decide⟩
  · intro hct hie
    simp only at hct
    subst hct
    simp [tryBlock, hie]
  · intro hct hie himg hwr
    simp only at hct hwr
    subst hct
    subst hwr
    simp [tryBlock, hie, himg]
  · intro hct hie himg
    simp only at hct
    subst hct
    simp [tryBlock, hie, himg]
  · intro fsE mime l hl hlne hfs
    simp [textPathResult, hl, hlne, hfs]
  · intro fsE mime l hl hlne hfs hep hfse
    simp [textPathResult, hl, hlne, hfs, hep, hfse]
  · intro fsE mime hl hep hfse
    simp [textPathResult, hl, hep, hfse]
  · intro fsE mime l hl hfs hfse
    by_cases hlne : l = ""
    · subst hlne
      by_cases hep : expectedPath = ""
      · subst hep; simp [textPathResult, hl]
      · simp [textPathResult, hl, hep, hfse]
    · by_cases hep : expectedPath = ""
      · subst hep; simp [textPathResult, hl, hlne, hfs]
      · simp [textPathResult, hl, hlne, hfs, hep, hfse]
  · intro fsE mime hl hfse
    by_cases hep : expectedPath = ""
    · subst hep; simp [textPathResult, hl]
    · simp [textPathResult, hl, hep, hfse]
  · intro text p hp
    simp [extractFirstLinkedFilePath, hp]
  · intro text hp
    simp [extractFirstLinkedFilePath, hp]
  · intro text p hp
    unfold extractFirstLinkedFilePath at hp
    cases hfind : (linkCandidatesOf text).find? isImagePath with
    | some q =>
        rw [hfind] at hp
        injection hp with hq
        subst hq
        exact List.mem_of_find?_eq_some hfind
    | none =>
        rw [hfind] at hp
        exact List.mem_of_mem_head? hp

/-- Witness for C6's amended claim: an image block with non-empty base64 data
and a successful write yields the expected path and the block's mime type. -/
theorem tryBlock_precedence_witness :
    (tryBlock ⟨.ok (), .ok ⟨false, [.image (some "QUJD") (some "image/png")]⟩, .ok (),
        fun _ => false, 1⟩ ("/out/p.png")).1
      = some ⟨"/out/p.png", some "image/png"⟩ :=
  (tryBlock_precedence _ ("/out/p.png") ⟨false, [.image (some "QUJD") (some "image/png")]⟩).2.1
    rfl rfl (by decide) rfl

theorem sanitize_eq_runCollapse (l : List Char) :
    sanitizeChars l = runCollapse l
      ∧ skipBad l = runCollapse (l.dropWhile (fun d => !isSafeChar d)) := by
  induction l with
  | nil => constructor <;> simp [sanitizeChars, skipBad, runCollapse]
  | cons c cs ih =>
      obtain ⟨ih1, ih2⟩ := ih
      cases hc : isSafeChar c with
      | true =>
          constructor
          · simp [sanitizeChars, runCollapse, hc, ih1]
          · simp [skipBad, runCollapse, List.dropWhile_cons, hc, ih1]
      | false =>
          constructor
          · simp [sanitizeChars, runCollapse, hc, ih2]
          · simp [skipBad, List.dropWhile_cons, hc, ih2]

theorem sanitizeChars_ne_nil (c : Char) (cs : List Char) : sanitizeChars (c :: cs) ≠ [] := by
  cases hc : isSafeChar c <;> simp [sanitizeChars, hc]

/-- C7 counterexample: the `+` quantifier of the sanitising regex replaces a
whole run of invalid characters with one dash, not one dash per character as
the claim words it, so for a tool name with two adjacent invalid characters
the composed filename differs from the claim's. -/
theorem sanitize_not_per_char :
    sanitizeTool ("a!!b") = "a-b"
    ∧ String.mk (charReplace (("a!!b").data)) = "a--b"
    ∧ sanitizeTool ("a!!b") ≠ String.mk (charReplace (("a!!b").data))
    ∧ relFileNameOf ("sess") (some "a!!b") (some "c1") 42 = "sess/a-b-c1-42.png"
    ∧ "sess/a-b-c1-42.png" ≠ "sess/a--b-c1-42.png" :=
  ⟨by decide, by decide, by decide, by decide, by decide⟩

/-- C7 amended: the tool field is sanitized by replacing each maximal run of
consecutive characters outside the allowed class with a single dash
(defaulting to the word call when the tool is absent or empty), and the
relative artifact filename is the session id joined with the dash-separated
sanitized tool, call id (or the word auto) and timestamp, ending in `.png`.
The inner empty-string fallback never fires for a non-empty tool, since the
sanitizer's output of a non-empty input is non-empty. -/
theorem relFileName_spec :
    (∀ l, sanitizeChars l = runCollapse l)
    ∧ (∀ (sid t c : String) (ts : Nat), t ≠ "" →
        relFileNameOf sid (some t) (some c) ts
          = pathJoin sid (sanitizeTool t ++ "-" ++ c ++ "-" ++ toString ts ++ ".png"))
    ∧ (∀ (sid t : String) (ts : Nat), t ≠ "" →
        relFileNameOf sid (some t) none ts
          = pathJoin sid (sanitizeTool t ++ "-" ++ "auto" ++ "-" ++ toString ts ++ ".png"))
    ∧ (∀ (sid c : String) (ts : Nat),
        relFileNameOf sid none (some c) ts
          = pathJoin sid ("call" ++ "-" ++ c ++ "-" ++ toString ts ++ ".png"))
    ∧ (∀ (sid : String) (ts : Nat),
        relFileNameOf sid none none ts
          = pathJoin sid ("call" ++ "-" ++ "auto" ++ "-" ++ toString ts ++ ".png")) := by
  have hne : ∀ t : String, t ≠ "" → (sanitizeTool t == "") = false := by
    intro t ht
    obtain ⟨data⟩ := t
    cases data with
    | nil => exact absurd rfl ht
    | cons c cs =>
        rw [beq_eq_false_iff_ne]
        intro heq
        exact sanitizeChars_ne_nil c cs (congrArg String.data heq)
  refine ⟨fun l => (sanitize_eq_runCollapse l).1, ?_, ?_, ?_, ?_⟩
  · intro sid t c ts ht
    have h1 : (t == "") = false := beq_eq_false_iff_ne.mpr ht
    simp [relFileNameOf, safeToolOf, h1, hne t ht]
  · intro sid t ts ht
    have h1 : (t == "") = false := beq_eq_false_iff_ne.mpr ht
    simp [relFileNameOf, safeToolOf, h1, hne t ht]
  · intro sid c ts
    simp [relFileNameOf, safeToolOf]
  · intro sid ts
    simp [relFileNameOf, safeToolOf]

/-- Witness for C7's amended claim: a non-empty tool name composes through
the sanitizer. -/
theorem relFileName_spec_witness :
    relFileNameOf ("sess") (some "shot") (some "c1") 42
      = pathJoin ("sess") (sanitizeTool ("shot") ++ "-" ++ "c1" ++ "-" ++ toString 42 ++ ".png") :=
  relFileName_spec.2.1 ("sess") ("shot") ("c1") 42 (by decide)

theorem noAdjWs_cons (c : Char) (l : List Char) :
    noAdjWs (c :: l)
      = ((match l.head? with
          | some d => !(isWs c && isWs d)
          | none => true) && noAdjWs l) := by
  cases l <;> simp [noAdjWs]

theorem skipWs_head_not (l : List Char) :
    ∀ c, (skipWs l).head? = some c → isWs c = false := by
  induction l with
  | nil => intro c h; simp [skipWs] at h
  | cons a as ih =>
      intro c h
      cases ha : isWs a with
      | true =>
          simp only [skipWs, ha, if_true] at h
          exact ih c h
      | false =>
          simp only [skipWs, ha] at h
          simp at h
          rw [← h]
          exact ha

theorem collapseWs_props (l : List Char) :
    (spaceOnlyWs (collapseWs l) = true ∧ noAdjWs (collapseWs l) = true)
      ∧ (spaceOnlyWs (skipWs l) = true ∧ noAdjWs (skipWs l) = true) := by
  induction l with
  | nil => constructor <;> constructor <;> simp [collapseWs, skipWs, spaceOnlyWs, noAdjWs]
  | cons a as ih =>
      obtain ⟨⟨ihc1, ihc2⟩, ⟨ihs1, ihs2⟩⟩ := ih
      cases ha : isWs a with
      | true =>
          have hcl : collapseWs (a :: as) = ' ' :: skipWs as := by simp [collapseWs, ha]
          have hsk : skipWs (a :: as) = skipWs as := by simp [skipWs, ha]
          have hsp : spaceOnlyWs (' ' :: skipWs as) = true := by
            simp only [spaceOnlyWs, List.all_cons, Bool.and_eq_true]
            exact ⟨by decide, ihs1⟩
          have hna : noAdjWs (' ' :: skipWs as) = true := by
            rw [noAdjWs_cons]
            cases hh : (skipWs as).head? with
            | none => simp [ihs2]
            | some d =>
                have hd := skipWs_head_not as d hh
                simp [hd, ihs2]
          refine ⟨⟨?_, ?_⟩, ⟨?_, ?_⟩⟩
          · rw [hcl]; exact hsp
          · rw [hcl]; exact hna
          · rw [hsk]; exact ihs1
          · rw [hsk]; exact ihs2
      | false =>
          have hcl : collapseWs (a :: as) = a :: collapseWs as := by simp [collapseWs, ha]
          have hsk : skipWs (a :: as) = a :: collapseWs as := by simp [skipWs, ha]
          have hsp : spaceOnlyWs (a :: collapseWs as) = true := by
            simp only [spaceOnlyWs, List.all_cons, Bool.and_eq_true]
            exact ⟨by simp [ha], ihc1⟩
          have hna : noAdjWs (a :: collapseWs as) = true := by
            rw [noAdjWs_cons]
            cases hh : (collapseWs as).head? with
            | none => simp [ihc2]
            | some d => simp [ha, ihc2]
          refine ⟨⟨?_, ?_⟩, ⟨?_, ?_⟩⟩
          · rw [hcl]; exact hsp
          · rw [hcl]; exact hna
          · rw [hsk]; exact hsp
          · rw [hsk]; exact hna

theorem noAdjWs_tail (c : Char) (l : List Char) (h : noAdjWs (c :: l) = true) :
    noAdjWs l = true := by
  rw [noAdjWs_cons] at h
  simp only [Bool.and_eq_true] at h
  exact h.2

theorem noAdjWs_append_right (l1 l2 : List Char) (h : noAdjWs (l1 ++ l2) = true) :
    noAdjWs l2 = true := by
  induction l1 with
  | nil => exact h
  | cons c t ih => exact ih (noAdjWs_tail c (t ++ l2) h)

theorem noAdjWs_append_left (l1 l2 : List Char) (h : noAdjWs (l1 ++ l2) = true) :
    noAdjWs l1 = true := by
  induction l1 with
  | nil => simp [noAdjWs]
  | cons c t ih =>
      simp only [List.cons_append] at h
      rw [noAdjWs_cons] at h ⊢
      simp only [Bool.and_eq_true] at h ⊢
      obtain ⟨h1, h2⟩ := h
      refine ⟨?_, ih h2⟩
      cases t with
      | nil => simp
      | cons d t2 => simpa using h1

theorem dropTrailingWs_eq_append (l : List Char) :
    ∃ rest, l = dropTrailingWs l ++ rest := by
  induction l with
  | nil => exact ⟨[], rfl⟩
  | cons c cs ih =>
      obtain ⟨rest, hrest⟩ := ih
      cases hd : dropTrailingWs cs with
      | nil =>
          cases hw : isWs c with
          | true =>
              refine ⟨c :: cs, ?_⟩
              simp [dropTrailingWs, hd, hw]
          | false =>
              refine ⟨cs, ?_⟩
              simp [dropTrailingWs, hd, hw]
      | cons d t =>
          refine ⟨rest, ?_⟩
          have he : dropTrailingWs (c :: cs) = c :: d :: t := by simp [dropTrailingWs, hd]
          rw [he]
          rw [hd] at hrest
          simp [hrest]

theorem dropWhile_head_not (p : Char → Bool) (l : List Char) :
    ∀ c, (l.dropWhile p).head? = some c → p c = false := by
  induction l with
  | nil => intro c h; simp [List.dropWhile] at h
  | cons a as ih =>
      intro c h
      cases hp : p a with
      | true =>
          rw [List.dropWhile_cons_of_pos hp] at h
          exact ih c h
      | false =>
          rw [List.dropWhile_cons_of_neg (by simp [hp])] at h
          simp at h
          rw [← h]
          exact hp

theorem dropTrailingWs_getLast_not (l : List Char) :
    ∀ c, (dropTrailingWs l).getLast? = some c → isWs c = false := by
  induction l with
  | nil => intro c h; simp [dropTrailingWs] at h
  | cons a as ih =>
      intro c h
      cases hd : dropTrailingWs as with
      | nil =>
          cases hw : isWs a with
          | true => simp [dropTrailingWs, hd, hw] at h
          | false =>
              simp [dropTrailingWs, hd, hw] at h
              rw [← h]
              exact hw
      | cons d t =>
          have he : dropTrailingWs (a :: as) = a :: d :: t := by simp [dropTrailingWs, hd]
          rw [he, List.getLast?_cons_cons, ← hd] at h
          exact ih c h

theorem dropTrailingWs_head_of (l : List Char) (c : Char) (rest : List Char)
    (h : dropTrailingWs l = c :: rest) : l.head? = some c := by
  obtain ⟨r2, hr⟩ := dropTrailingWs_eq_append l
  rw [h] at hr
  rw [hr]
  rfl

theorem cleanChars_props (l : List Char) :
    spaceOnlyWs (cleanChars l) = true
    ∧ noAdjWs (cleanChars l) = true
    ∧ (∀ c, (cleanChars l).head? = some c → isWs c = false)
    ∧ (∀ c, (cleanChars l).getLast? = some c → isWs c = false) := by
  have hcol := (collapseWs_props l).1
  have hsplit : (collapseWs l).takeWhile isWs ++ (collapseWs l).dropWhile isWs
      = collapseWs l := by simp
  have hxall : spaceOnlyWs ((collapseWs l).dropWhile isWs) = true := by
    have h1 := hcol.1
    rw [← hsplit] at h1
    simp only [spaceOnlyWs, List.all_append, Bool.and_eq_true] at h1
    simpa [spaceOnlyWs] using h1.2
  have hxadj : noAdjWs ((collapseWs l).dropWhile isWs) = true := by
    refine noAdjWs_append_right ((collapseWs l).takeWhile isWs) _ ?_
    rw [hsplit]
    exact hcol.2
  have hclean : cleanChars l = dropTrailingWs ((collapseWs l).dropWhile isWs) := rfl
  obtain ⟨rest, hrest⟩ := dropTrailingWs_eq_append ((collapseWs l).dropWhile isWs)
  refine ⟨?_, ?_, ?_, ?_⟩
  · rw [hclean]
    have h2 := hxall
    rw [hrest] at h2
    simp only [spaceOnlyWs, List.all_append, Bool.and_eq_true] at h2
    simpa [spaceOnlyWs] using h2.1
  · rw [hclean]
    exact noAdjWs_append_left _ rest (hrest ▸ hxadj)
  · intro c hc
    rw [hclean] at hc
    cases hh : dropTrailingWs ((collapseWs l).dropWhile isWs) with
    | nil => rw [hh] at hc; simp at hc
    | cons c2 r =>
        rw [hh] at hc
        simp at hc
        have hhead := dropTrailingWs_head_of _ c2 r hh
        rw [← hc]
        exact dropWhile_head_not isWs (collapseWs l) c2 hhead
  · intro c hc
    rw [hclean] at hc
    exact dropTrailingWs_getLast_not _ c hc

set_option maxRecDepth 8000 in
/-- C8 counterexample: for an error text of 241 non-whitespace characters the
logged snippet is 243 characters long — 240 kept characters plus the
3-character truncation mark — exceeding the claimed 240-character bound. -/
theorem safeSnippet_exceeds_240 :
    (safeSnippet (String.mk (List.replicate 241 'x'))).length = 243
    ∧ ¬ (safeSnippet (String.mk (List.replicate 241 'x'))).length ≤ 240 :=
  ⟨by decide, by decide⟩

/-- C8 amended: the logged snippet of a tool error is drawn from the
whitespace-collapsed and trimmed error text (all whitespace rendered as
single spaces, never adjacent, none leading or trailing); it equals that
cleaned text when it fits in 240 characters and otherwise consists of its
first 240 characters plus a 3-character truncation mark, for a total length
of at most 243; and the call returns null with exactly that log entry,
without throwing. -/
theorem safeSnippet_spec (text : String) (fx : ScreenshotFx) (expectedPath : String)
    (res : ToolResponse) :
    (safeSnippet text).length ≤ 243
    ∧ spaceOnlyWs (cleanChars text.data) = true
    ∧ noAdjWs (cleanChars text.data) = true
    ∧ (∀ c, (cleanChars text.data).head? = some c → isWs c = false)
    ∧ (∀ c, (cleanChars text.data).getLast? = some c → isWs c = false)
    ∧ ((cleanChars text.data).length ≤ 240 →
        safeSnippet text = String.mk (cleanChars text.data))
    ∧ (240 < (cleanChars text.data).length → (safeSnippet text).length = 243)
    ∧ (fx.callTool = .ok res → res.isError = true →
        (tryBlock fx expectedPath).1 = none
          ∧ (tryBlock fx expectedPath).2
              = ["[playwright-mcp] screenshot tool error: "
                  ++ safeSnippet (firstBlockText res)]) := by
  have hell : ellipsisChars.length = 3 := rfl
  have hlen3 : ∀ l : List Char, (safeSnippetChars l).length ≤ 243
      ∧ (240 < (cleanChars l).length → (safeSnippetChars l).length = 243)
      ∧ ((cleanChars l).length ≤ 240 → safeSnippetChars l = cleanChars l) := by
    intro l
    by_cases hc : (cleanChars l).length ≤ 240
    · refine ⟨?_, ?_, ?_⟩
      · simp only [safeSnippetChars, if_pos hc]
        omega
      · intro h; omega
      · intro _; simp only [safeSnippetChars, if_pos hc]
    · refine ⟨?_, ?_, ?_⟩
      · simp only [safeSnippetChars, if_neg hc, List.length_append, List.length_take, hell]
        omega
      · intro _
        simp only [safeSnippetChars, if_neg hc, List.length_append, List.length_take, hell]
        omega
      · intro h; omega
  have hprops := cleanChars_props text.data
  have hslen : (safeSnippet text).length = (safeSnippetChars text.data).length := rfl
  refine ⟨?_, hprops.1, hprops.2.1, hprops.2.2.1, hprops.2.2.2, ?_, ?_, ?_⟩
  · rw [hslen]; exact (hlen3 text.data).1
  · intro h
    exact congrArg String.mk ((hlen3 text.data).2.2 h)
  · intro h
    rw [hslen]; exact (hlen3 text.data).2.1 h
  · intro hct hie
    obtain ⟨mk, ct, wr, fs, now⟩ := fx
    simp only at hct
    subst hct
    exact ⟨by simp [tryBlock, hie], by simp [tryBlock, hie]⟩

/-- Witness for C8's amended claim: a short error text is logged exactly as
its whitespace-collapsed, trimmed form. -/
theorem safeSnippet_spec_witness :
    safeSnippet ("  net::ERR   timed  out ") = String.mk (cleanChars (("  net::ERR   timed  out ").data)) :=
  (safeSnippet_spec ("  net::ERR   timed  out ")
      ⟨.ok (), .error "e", .ok (), fun _ => false, 0⟩ ("p") ⟨true, []⟩).2.2.2.2.2.1
    (by decide)

end Tintin
